import Mathlib

/-
Verification of the minions orchestrator core (Go sources) against its
natural-language specification.

Shallow embedding. Go protobuf messages become Lean structures; Go maps
become association lists (Go iterates maps in unspecified order, so any
fixed order is a faithful refinement for the set-level properties proved
here); Go slices become Lean lists; Go int64 becomes Int; Go byte values
become Nat. A Go function that can panic at runtime (nil-interface type
assertion, out-of-bounds slice index) is embedded with the GoResult
wrapper below, whose panics constructor marks exactly those program
points.
-/

set_option autoImplicit false

deriving instance DecidableEq for Except

namespace Minions

/-- Outcome of a call into Go code: a normal return, or a runtime panic. -/
inductive GoResult (α : Type) where
  | ret (a : α)
  | panics
deriving DecidableEq, Repr

/-- DataType of proto Interest: Interest_METADATA or Interest_METADATA_AND_DATA. -/
inductive DataType where
  | METADATA
  | METADATA_AND_DATA
deriving DecidableEq, Repr

/-- Proto message Interest (fields read by the Go code under verification:
DataType, PathRegexp, ContentRegexp). -/
structure Interest where
  dataType : DataType
  pathRegexp : String
  contentRegexp : String
deriving DecidableEq, Repr

/-- Proto message FileMetadata; the code under verification reads only the
path and the size (remaining fields, such as owner and permissions, are
never consulted by it). -/
structure FileMetadata where
  path : String
  size : Int
deriving DecidableEq, Repr

/-- Proto message DataChunk: a byte offset (int64) and a byte payload. -/
structure DataChunk where
  offset : Int
  data : List Nat
deriving DecidableEq, Repr

/-- Proto message File of the overlord proto: optional metadata (a nil-able
proto submessage) plus a list of data chunks. -/
structure File where
  metadata : Option FileMetadata
  dataChunks : List DataChunk
deriving DecidableEq, Repr

/-- Proto getter GetPath through a possibly-nil metadata pointer: proto
getters on nil return the zero value. -/
def File.getPath (f : File) : String :=
  match f.metadata with
  | none => ""
  | some md => md.path

/-- Proto getter GetSize through a possibly-nil metadata pointer. -/
def File.getSize (f : File) : Int :=
  match f.metadata with
  | none => 0
  | some md => md.size

/-- MappedInterest (state/statemanager.go): an Interest together with the
address of the minion that expressed it. -/
structure MappedInterest where
  interest : Interest
  minion : String
deriving DecidableEq, Repr

/-- Proto message mpb.File routed to a minion: pre-assembled metadata and
bytes, no chunk structure. -/
structure MinionFile where
  metadata : Option FileMetadata
  data : List Nat
deriving DecidableEq, Repr

/- ### Association lists, modelling Go string-keyed maps -/

/-- Lookup in a Go map modelled as an association list. -/
def lookupA {α : Type} : List (String × α) → String → Option α
  | [], _ => none
  | (k, v) :: rest, key => if k = key then some v else lookupA rest key

/-- Go map assignment m\x7bk\x7d = v: replaces the binding in place, or appends
a new binding when the key is absent. -/
def setA {α : Type} : List (String × α) → String → α → List (String × α)
  | [], key, v => [(key, v)]
  | (k, w) :: rest, key, v =>
      if k = key then (key, v) :: rest else (k, w) :: setA rest key v

/-- Go map delete. -/
def removeA {α : Type} : List (String × α) → String → List (String × α)
  | [], _ => []
  | (k, w) :: rest, key => if k = key then rest else (k, w) :: removeA rest key

theorem lookupA_setA {α : Type} (m : List (String × α)) (k k' : String) (v : α) :
    lookupA (setA m k v) k' = if k' = k then some v else lookupA m k' := by
  induction m with
  | nil =>
      simp only [setA, lookupA]
      by_cases h : k = k'
      · subst h; simp
      · rw [if_neg h, if_neg (fun hh => h hh.symm)]
  | cons kv rest ih =>
      obtain ⟨k0, w⟩ := kv
      simp only [setA]
      by_cases h0 : k0 = k
      · subst h0
        rw [if_pos rfl]
        simp only [lookupA]
        by_cases h : k0 = k'
        · subst h; simp
        · rw [if_neg h, if_neg (fun hh => h hh.symm), if_neg h]
      · rw [if_neg h0]
        simp only [lookupA]
        by_cases h1 : k0 = k'
        · subst h1
          rw [if_pos rfl, if_neg h0, if_pos rfl]
        · rw [if_neg h1, ih, if_neg h1]

theorem mem_setA {α : Type} (m : List (String × α)) (k : String) (v : α)
    (kv : String × α) (h : kv ∈ setA m k v) : kv ∈ m ∨ kv = (k, v) := by
  induction m with
  | nil => simp [setA] at h; right; exact h
  | cons hd rest ih =>
      obtain ⟨k0, w⟩ := hd
      by_cases h0 : k0 = k
      · simp [setA, h0] at h
        rcases h with h | h
        · right; exact h
        · left; exact List.mem_cons_of_mem _ h
      · simp [setA, h0] at h
        rcases h with h | h
        · left; simp [h]
        · rcases ih h with h' | h'
          · left; exact List.mem_cons_of_mem _ h'
          · right; exact h'

theorem mem_removeA {α : Type} (m : List (String × α)) (k : String)
    (kv : String × α) (h : kv ∈ removeA m k) : kv ∈ m := by
  induction m with
  | nil => simp [removeA] at h
  | cons hd rest ih =>
      obtain ⟨k0, w⟩ := hd
      by_cases h0 : k0 = k
      · simp [removeA, h0] at h
        exact List.mem_cons_of_mem _ h
      · simp [removeA, h0] at h
        rcases h with h | h
        · simp [h]
        · exact List.mem_cons_of_mem _ (ih h)

theorem lookupA_mem {α : Type} (m : List (String × α)) (k : String) (v : α)
    (h : lookupA m k = some v) : (k, v) ∈ m := by
  induction m with
  | nil => simp [lookupA] at h
  | cons hd rest ih =>
      obtain ⟨k0, w⟩ := hd
      by_cases h0 : k0 = k
      · subst h0
        simp [lookupA] at h
        simp [h]
      · simp [lookupA, h0] at h
        exact List.mem_cons_of_mem _ (ih h)

/- ### Regular-expression matching

Modelled from the spec: the Go regexp package is a dependency, not part of
this repository. The spec requires that the file path "matches
interest.path_pattern as a full-regex find" (unanchored containment) and
that "an invalid regex yields a routing error, not a silent miss". We
model the core constructs that the verified properties exercise: literal
characters, the any-character dot (which, as in Go, does not match a
newline), backslash escapes, and — as the modelled compile error, exactly
as in Go — a pattern that ends in a trailing backslash. -/

/-- One compiled regular-expression token. -/
inductive RegexTok where
  | lit (c : Char)
  | anyChar
deriving DecidableEq, Repr

/-- Modelled from the spec: compilation of a pattern string, with none as
the malformed-pattern error (a trailing backslash, as in Go). -/
def compileRegex : List Char → Option (List RegexTok)
  | [] => some []
  | ['\\'] => none
  | '\\' :: c :: rest =>
      match compileRegex rest with
      | none => none
      | some ts => some (RegexTok.lit c :: ts)
  | c :: rest =>
      match compileRegex rest with
      | none => none
      | some ts =>
          some ((if c = '.' then RegexTok.anyChar else RegexTok.lit c) :: ts)

/-- Whether one token matches one character. -/
def tokMatches : RegexTok → Char → Bool
  | RegexTok.lit c, x => c = x
  | RegexTok.anyChar, x => x ≠ '\n'

/-- Whether the token list matches a prefix of the character list. -/
def matchHere : List RegexTok → List Char → Bool
  | [], _ => true
  | _ :: _, [] => false
  | t :: ts, c :: cs => tokMatches t c && matchHere ts cs

/-- Find semantics: the token list matches at some position of the string. -/
def findTok (ts : List RegexTok) : List Char → Bool
  | [] => matchHere ts []
  | c :: cs => matchHere ts (c :: cs) || findTok ts cs

/-- Modelled from the spec: Go regexp.MatchString(pattern, s) — an error
for a malformed pattern, otherwise whether s contains a match of the
pattern. -/
def matchString (pattern s : String) : Except String Bool :=
  match compileRegex pattern.toList with
  | none => Except.error ("error parsing regexp")
  | some ts => Except.ok (findTok ts s.toList)

/- ### interests.go -/

/-- One iteration of the Minify loop over the uniqueInterests map
(interests.go lines 30-42): insert an unseen path key; on a duplicate key
overwrite only when the incoming interest is METADATA_AND_DATA. -/
def minifyStep (acc : List (String × Interest)) (i : Interest) :
    List (String × Interest) :=
  match lookupA acc i.pathRegexp with
  | none => setA acc i.pathRegexp i
  | some _ =>
      if i.dataType = DataType.METADATA_AND_DATA then setA acc i.pathRegexp i
      else acc

/-- Minify (interests.go lines 27-51): deduplicate interests keyed by
PathRegexp, METADATA_AND_DATA dominating, then return the map values. -/
def Minify (interests : List Interest) : List Interest :=
  (interests.foldl minifyStep []).map Prod.snd

/-- IsMatching (interests.go lines 56-67): an error without metadata or on
a malformed path regexp; otherwise true iff the path matches and either
the interest is METADATA, or it is METADATA_AND_DATA and the file has at
least one data chunk. -/
def IsMatching (interest : Interest) (file : File) : Except String Bool :=
  match file.metadata with
  | none => Except.error ("cannot match file without metadata")
  | some md =>
      match matchString interest.pathRegexp md.path with
      | Except.error e => Except.error e
      | Except.ok false => Except.ok false
      | Except.ok true =>
          let dataNeededAndThere :=
            decide (interest.dataType = DataType.METADATA_AND_DATA) &&
              decide (file.dataChunks.length > 0)
          Except.ok (decide (interest.dataType = DataType.METADATA) ||
            dataNeededAndThere)

/- ### state/statemanager.go -/

/-- Insertion of a chunk into an offset-ordered list, keeping an incoming
equal offset after the ones already placed. -/
def insertChunk (c : DataChunk) : List DataChunk → List DataChunk
  | [] => [c]
  | d :: ds => if c.offset < d.offset then c :: d :: ds else d :: insertChunk c ds

/-- The sort.Slice call of Local.AddFiles (statemanager.go lines 75-77):
sorts the incoming chunks by offset ascending. Go sorts unstably with a
strict comparison; this stable insertion sort produces one of the
offset-ascending permutations Go may produce, which is all the code
observes. -/
def sortChunks : List DataChunk → List DataChunk
  | [] => []
  | c :: cs => insertChunk c (sortChunks cs)

/-- The chunk loop of Local.AddFiles (statemanager.go lines 78-87) run on
the already-sorted incoming chunks: starting from the stored first-chunk
data, append each chunk whose offset equals the current length; a lower
offset is the overlapping-chunks error and any other offset the
missing-chunks error. The returned data reflects every append performed
before a possible error, because the Go loop mutates the stored chunk in
place as it goes. -/
def appendChunks : List Nat → List DataChunk → List Nat × Option String
  | data, [] => (data, none)
  | data, chunk :: rest =>
      if chunk.offset < (data.length : Int) then
        (data, some ("received a file with overlapping DataChunks"))
      else if chunk.offset ≠ (data.length : Int) then
        (data, some ("received a file with missing DataChunks"))
      else
        appendChunks (data ++ chunk.data) rest

/-- The state struct of statemanager.go: the interests expressed so far
and the files map of the scan. -/
structure ScanState where
  interests : List MappedInterest
  files : List (String × File)
deriving DecidableEq, Repr

/-- One iteration of the outer file loop of Local.AddFiles (statemanager.go
lines 58-87). An unknown path is first given a fresh entry holding one
empty chunk at offset zero; the unguarded GetDataChunks()[0] access then
panics if the stored file has no chunks; finally the sorted incoming
chunks are appended into that first chunk. All updates act on the shared
stored objects, so they persist even when an error is returned. -/
def addOneFile (files : List (String × File)) (f : File) :
    GoResult (List (String × File) × Option String) :=
  let path := f.getPath
  let entry :=
    match lookupA files path with
    | some cf => (files, cf)
    | none =>
        let nf : File := ⟨f.metadata, [⟨0, []⟩]⟩
        (setA files path nf, nf)
  match entry.2.dataChunks with
  | [] => GoResult.panics
  | c0 :: restChunks =>
      let res := appendChunks c0.data (sortChunks f.dataChunks)
      let updated : File := ⟨entry.2.metadata, ⟨c0.offset, res.1⟩ :: restChunks⟩
      GoResult.ret (setA entry.1 path updated, res.2)

/-- The outer loop of Local.AddFiles over the incoming batch: the call
returns at the first failing file, with every mutation made so far kept. -/
def addFilesLoop (files : List (String × File)) :
    List File → GoResult (List (String × File) × Option String)
  | [] => GoResult.ret (files, none)
  | f :: fs =>
      match addOneFile files f with
      | GoResult.panics => GoResult.panics
      | GoResult.ret (files1, some e) => GoResult.ret (files1, some e)
      | GoResult.ret (files1, none) => addFilesLoop files1 fs

/-- Local.getState (statemanager.go lines 159-162). Modelled from the
spec for the go-cache dependency (not part of this repository): Get on a
string key returns the stored value and a presence flag, and an absent
key — never created or TTL-evicted — yields the nil interface. The Go
code then performs the non-comma-ok type assertion on that value before
returning, which panics on the nil interface; hence a missing scan never
reaches the callers found-check. -/
def getState (cache : List (String × ScanState)) (scanID : String) :
    GoResult (ScanState × Bool) :=
  match lookupA cache scanID with
  | some s => GoResult.ret (s, true)
  | none => GoResult.panics

/-- Local.AddFiles (statemanager.go lines 53-91) at the cache level. The
not-found error branch of the source is unreachable because getState has
already panicked on a missing scan. The files map object is shared
between the cache and the local variable, so the per-chunk mutations are
visible in the cache even on the error path, where the source returns
before its setState call. -/
def AddFiles (cache : List (String × ScanState)) (scanID : String)
    (files : List File) :
    GoResult (List (String × ScanState) × Option String) :=
  match getState cache scanID with
  | GoResult.panics => GoResult.panics
  | GoResult.ret (s, _found) =>
      match addFilesLoop s.files files with
      | GoResult.panics => GoResult.panics
      | GoResult.ret (files1, err) =>
          GoResult.ret (setA cache scanID ⟨s.interests, files1⟩, err)

/-- Local.CreateScan (statemanager.go lines 95-101): sets a fresh empty
state, resetting any previous one. -/
def CreateScan (cache : List (String × ScanState)) (scanID : String) :
    List (String × ScanState) :=
  setA cache scanID ⟨[], []⟩

/-- Local.AddInterest (statemanager.go lines 121-129): appends the mapped
interest to the scan state. The found flag of getState is ignored, so a
missing scan panics inside getState. -/
def AddInterest (cache : List (String × ScanState)) (scanID : String)
    (interest : Interest) (minion : String) :
    GoResult (List (String × ScanState)) :=
  match getState cache scanID with
  | GoResult.panics => GoResult.panics
  | GoResult.ret (s, _found) =>
      GoResult.ret (setA cache scanID ⟨s.interests ++ [⟨interest, minion⟩], s.files⟩)

/-- Local.RemoveFile (statemanager.go lines 106-118): deletes the file
entry for the path of the given file, reporting whether it was present. -/
def RemoveFile (cache : List (String × ScanState)) (scanID : String)
    (file : File) : GoResult (List (String × ScanState) × Bool) :=
  match getState cache scanID with
  | GoResult.panics => GoResult.panics
  | GoResult.ret (s, _found) =>
      let path := file.getPath
      match lookupA s.files path with
      | some _ =>
          GoResult.ret (setA cache scanID ⟨s.interests, removeA s.files path⟩, true)
      | none => GoResult.ret (cache, false)

/-- Local.ScanExists (statemanager.go lines 132-135): a plain presence
check on the cache, with no type assertion, hence no panic. -/
def ScanExists (cache : List (String × ScanState)) (scanID : String) : Bool :=
  (lookupA cache scanID).isSome

/-- Local.GetFiles (statemanager.go lines 138-148): the files currently
tracked for the scan, in map iteration order. -/
def GetFiles (s : ScanState) : List File :=
  s.files.map Prod.snd

/- ### Server.ScanFiles routing (overlord.go lines 171-203) -/

/-- The completeness test of Server.ScanFiles (overlord.go line 189): the
metadata size equals the byte length accumulated in the first stored
chunk. The first-chunk access is unguarded in the source, so a file
without chunks panics. -/
def isCompleteFile (f : File) : GoResult Bool :=
  match f.dataChunks with
  | [] => GoResult.panics
  | c0 :: _ => GoResult.ret (decide (f.getSize = (c0.data.length : Int)))

/-- Appends a routed payload for one minion, as the Go
routedFiles[minion] = append(routedFiles[minion], payload). -/
def appendRouted (routed : List (String × List MinionFile)) (minion : String)
    (payload : MinionFile) : List (String × List MinionFile) :=
  setA routed minion (((lookupA routed minion).getD []) ++ [payload])

/-- The payloads routed to one minion so far (empty when none). -/
def getRouted (routed : List (String × List MinionFile)) (minion : String) :
    List MinionFile :=
  (lookupA routed minion).getD []

/-- The body of the interest loop of Server.ScanFiles (overlord.go lines
182-202) for one file and one candidate interest: a matching error aborts
the call; on a match the unguarded first-chunk access feeds the
completeness test, then a complete file is routed with its bytes to a
METADATA_AND_DATA interest, a METADATA interest is routed metadata only,
and a still-incomplete file wanted with data is skipped. -/
def routeStep (routed : List (String × List MinionFile)) (f : File)
    (candidate : MappedInterest) :
    GoResult (Except String (List (String × List MinionFile))) :=
  match IsMatching candidate.interest f with
  | Except.error e => GoResult.ret (Except.error e)
  | Except.ok false => GoResult.ret (Except.ok routed)
  | Except.ok true =>
      match f.dataChunks with
      | [] => GoResult.panics
      | c0 :: _ =>
          let isComplete := f.getSize = (c0.data.length : Int)
          if candidate.interest.dataType = DataType.METADATA_AND_DATA ∧ isComplete then
            GoResult.ret (Except.ok (appendRouted routed candidate.minion
              ⟨f.metadata, c0.data⟩))
          else if candidate.interest.dataType = DataType.METADATA then
            GoResult.ret (Except.ok (appendRouted routed candidate.minion
              ⟨f.metadata, []⟩))
          else
            GoResult.ret (Except.ok routed)

/-- The interest loop of Server.ScanFiles for one file. -/
def routeInterests (routed : List (String × List MinionFile)) (f : File) :
    List MappedInterest → GoResult (Except String (List (String × List MinionFile)))
  | [] => GoResult.ret (Except.ok routed)
  | mi :: mis =>
      match routeStep routed f mi with
      | GoResult.panics => GoResult.panics
      | GoResult.ret (Except.error e) => GoResult.ret (Except.error e)
      | GoResult.ret (Except.ok routed1) => routeInterests routed1 f mis

/-- The file loop of Server.ScanFiles. The source re-reads the interest
list from the state manager for every file; the state does not change
during the pass, so the list is constant. -/
def routeFilesLoop (routed : List (String × List MinionFile))
    (intrs : List MappedInterest) :
    List File → GoResult (Except String (List (String × List MinionFile)))
  | [] => GoResult.ret (Except.ok routed)
  | f :: fs =>
      match routeInterests routed f intrs with
      | GoResult.panics => GoResult.panics
      | GoResult.ret (Except.error e) => GoResult.ret (Except.error e)
      | GoResult.ret (Except.ok routed1) => routeFilesLoop routed1 intrs fs

/-- The routing pass of Server.ScanFiles (overlord.go lines 171-203): from
the current interests and stored files, the per-minion routed payloads. -/
def ScanFilesRouting (intrs : List MappedInterest) (files : List File) :
    GoResult (Except String (List (String × List MinionFile))) :=
  routeFilesLoop [] intrs files

/- ### Characterization of chunk reassembly -/

/-- Concatenation of the byte payloads of a chunk list, in order. -/
def flatData (cs : List DataChunk) : List Nat :=
  cs.foldr (fun c acc => c.data ++ acc) []

/-- The chunk offsets tile contiguously starting at position L: each chunk
starts exactly where the previous one ended. -/
def contiguousFrom : Int → List DataChunk → Prop
  | _, [] => True
  | L, c :: cs => c.offset = L ∧ contiguousFrom (L + (c.data.length : Int)) cs

instance contiguousFromDec : (L : Int) → (cs : List DataChunk) →
    Decidable (contiguousFrom L cs)
  | _, [] => isTrue trivial
  | L, c :: cs =>
      haveI := contiguousFromDec (L + (c.data.length : Int)) cs
      inferInstanceAs (Decidable (c.offset = L ∧
        contiguousFrom (L + (c.data.length : Int)) cs))

/-- The chunk list is ordered by offset ascending. -/
def chunksAscending (l : List DataChunk) : Prop :=
  List.Pairwise (fun a b => a.offset ≤ b.offset) l

theorem insertChunk_perm (c : DataChunk) (l : List DataChunk) :
    List.Perm (insertChunk c l) (c :: l) := by
  induction l with
  | nil => simp [insertChunk]
  | cons d ds ih =>
      simp only [insertChunk]
      by_cases h : c.offset < d.offset
      · rw [if_pos h]
      · rw [if_neg h]
        exact List.Perm.trans (List.Perm.cons d ih) (List.Perm.swap c d ds)

theorem sortChunks_perm (l : List DataChunk) : List.Perm (sortChunks l) l := by
  induction l with
  | nil => simp [sortChunks]
  | cons c cs ih =>
      exact List.Perm.trans (insertChunk_perm c (sortChunks cs)) (List.Perm.cons c ih)

theorem insertChunk_ascending (c : DataChunk) (l : List DataChunk)
    (h : chunksAscending l) : chunksAscending (insertChunk c l) := by
  induction l with
  | nil => simp [insertChunk, chunksAscending]
  | cons d ds ih =>
      rcases List.pairwise_cons.mp h with ⟨hd, hds⟩
      simp only [insertChunk]
      by_cases hlt : c.offset < d.offset
      · rw [if_pos hlt]
        refine List.pairwise_cons.mpr ⟨?_, h⟩
        intro b hb
        rcases List.mem_cons.mp hb with hb | hb
        · exact hb ▸ le_of_lt hlt
        · exact le_trans (le_of_lt hlt) (hd b hb)
      · rw [if_neg hlt]
        refine List.pairwise_cons.mpr ⟨?_, ih hds⟩
        intro b hb
        have hb' := (insertChunk_perm c ds).mem_iff.mp hb
        rcases List.mem_cons.mp hb' with hb' | hb'
        · exact hb' ▸ not_lt.mp hlt
        · exact hd b hb'

theorem sortChunks_ascending (l : List DataChunk) :
    chunksAscending (sortChunks l) := by
  induction l with
  | nil => simp [sortChunks, chunksAscending]
  | cons c cs ih => exact insertChunk_ascending c (sortChunks cs) ih

theorem appendChunks_of_contiguous (cs : List DataChunk) :
    ∀ d : List Nat, contiguousFrom (d.length : Int) cs →
      appendChunks d cs = (d ++ flatData cs, none) := by
  induction cs with
  | nil => intro d _; simp [appendChunks, flatData]
  | cons c cs ih =>
      intro d h
      rcases h with ⟨hoff, hrest⟩
      simp only [appendChunks]
      rw [if_neg (by rw [hoff]; exact lt_irrefl _), if_neg (not_not_intro hoff)]
      have hlen : (((d ++ c.data).length : Nat) : Int) =
          (d.length : Int) + (c.data.length : Int) := by
        simp [List.length_append]
      have := ih (d ++ c.data) (by rw [hlen]; exact hrest)
      rw [this]
      simp [flatData, List.append_assoc]

theorem appendChunks_none (cs : List DataChunk) :
    ∀ d d' : List Nat, appendChunks d cs = (d', none) →
      contiguousFrom (d.length : Int) cs ∧ d' = d ++ flatData cs := by
  induction cs with
  | nil =>
      intro d d' h
      simp [appendChunks] at h
      simp [contiguousFrom, flatData, h]
  | cons c cs ih =>
      intro d d' h
      simp only [appendChunks] at h
      split_ifs at h with h1 h2
      · exact absurd (congrArg Prod.snd h) (by simp)
      · exact absurd (congrArg Prod.snd h) (by simp)
      · have hoff : c.offset = (d.length : Int) := not_not.mp h2
        have hlen : (((d ++ c.data).length : Nat) : Int) =
            (d.length : Int) + (c.data.length : Int) := by
          simp [List.length_append]
        rcases ih (d ++ c.data) d' h with ⟨hc, hd⟩
        refine ⟨⟨hoff, ?_⟩, ?_⟩
        · rw [← hlen]; exact hc
        · rw [hd]; simp [flatData, List.append_assoc]

theorem appendChunks_some (cs : List DataChunk) :
    ∀ (d d' : List Nat) (msg : String), appendChunks d cs = (d', some msg) →
      ∃ pre c post, cs = pre ++ c :: post ∧
        contiguousFrom (d.length : Int) pre ∧ d' = d ++ flatData pre ∧
        ((c.offset < (d'.length : Int) ∧
            msg = "received a file with overlapping DataChunks") ∨
         ((d'.length : Int) < c.offset ∧
            msg = "received a file with missing DataChunks")) := by
  induction cs with
  | nil =>
      intro d d' msg h
      simp [appendChunks] at h
  | cons c cs ih =>
      intro d d' msg h
      simp only [appendChunks] at h
      split_ifs at h with h1 h2
      · have hd : d = d' := congrArg Prod.fst h
        have hm : msg = "received a file with overlapping DataChunks" := by
          have := congrArg Prod.snd h
          simp at this
          exact this.symm
        exact ⟨[], c, cs, by simp, trivial, by simp [flatData, hd], Or.inl ⟨hd ▸ h1, hm⟩⟩
      · have hd : d = d' := congrArg Prod.fst h
        have hm : msg = "received a file with missing DataChunks" := by
          have := congrArg Prod.snd h
          simp at this
          exact this.symm
        have hgt : ((d.length : Nat) : Int) < c.offset :=
          lt_of_le_of_ne (not_lt.mp h1) (fun e => h2 e.symm)
        exact ⟨[], c, cs, by simp, trivial, by simp [flatData, hd], Or.inr ⟨hd ▸ hgt, hm⟩⟩
      · have hoff : c.offset = (d.length : Int) := not_not.mp h2
        have hlen : (((d ++ c.data).length : Nat) : Int) =
            (d.length : Int) + (c.data.length : Int) := by
          simp [List.length_append]
        rcases ih (d ++ c.data) d' msg h with ⟨pre, c', post, hsplit, hc, hd, htail⟩
        refine ⟨c :: pre, c', post, by rw [hsplit]; simp, ⟨hoff, ?_⟩, ?_, htail⟩
        · rw [← hlen]; exact hc
        · rw [hd]; simp [flatData, List.append_assoc]

/-- C1. For every add_files call on an existing scan and every incoming
File: the chunks are first sorted by offset ascending, then processed in
order against the stored length L; a chunk whose offset equals L is
appended (the loop succeeds exactly when the sorted chunks tile
contiguously from L, appending all their bytes in order); the first chunk
below L fails with the overlapping-chunks error and the first chunk above
L with the missing-chunks error, keeping the bytes appended before it;
the stored file is complete exactly when its length equals the metadata
size, so a size-zero file submitted without chunks is complete at once. -/
theorem C1_chunk_reassembly (d : List Nat) (cs : List DataChunk) (md : FileMetadata) :
    List.Perm (sortChunks cs) cs
    ∧ chunksAscending (sortChunks cs)
    ∧ (∀ d', appendChunks d (sortChunks cs) = (d', none) ↔
        (contiguousFrom (d.length : Int) (sortChunks cs) ∧
          d' = d ++ flatData (sortChunks cs)))
    ∧ (∀ d' msg, appendChunks d (sortChunks cs) = (d', some msg) →
        ∃ pre c post, sortChunks cs = pre ++ c :: post ∧
          contiguousFrom (d.length : Int) pre ∧ d' = d ++ flatData pre ∧
          ((c.offset < (d'.length : Int) ∧
              msg = "received a file with overlapping DataChunks") ∨
           ((d'.length : Int) < c.offset ∧
              msg = "received a file with missing DataChunks")))
    ∧ isCompleteFile ⟨some md, [⟨0, d⟩]⟩ =
        GoResult.ret (decide (md.size = (d.length : Int)))
    ∧ (md.size = 0 →
        addOneFile [] ⟨some md, []⟩ =
          GoResult.ret ([(md.path, ⟨some md, [⟨0, []⟩]⟩)], none)
        ∧ isCompleteFile ⟨some md, [⟨0, []⟩]⟩ = GoResult.ret true) := by
  refine ⟨sortChunks_perm cs, sortChunks_ascending cs, ?_, ?_, ?_, ?_⟩
  · intro d'
    constructor
    · exact appendChunks_none (sortChunks cs) d d'
    · rintro ⟨hc, hd⟩
      rw [appendChunks_of_contiguous (sortChunks cs) d hc, hd]
  · intro d' msg h
    exact appendChunks_some (sortChunks cs) d d' msg h
  · simp [isCompleteFile, File.getSize]
  · intro hz
    constructor
    · simp [addOneFile, File.getPath, lookupA, setA, appendChunks, sortChunks]
    · simp [isCompleteFile, File.getSize, hz]

/-- Closed instantiation of C1 at concrete inputs, with every inner
hypothesis discharged by evaluation. -/
theorem C1_chunk_reassembly_witness :
    (List.Perm (sortChunks [⟨2, [7]⟩, ⟨0, [5, 6]⟩]) [⟨2, [7]⟩, ⟨0, [5, 6]⟩]
    ∧ chunksAscending (sortChunks [⟨2, [7]⟩, ⟨0, [5, 6]⟩])
    ∧ (∀ d', appendChunks [] (sortChunks [⟨2, [7]⟩, ⟨0, [5, 6]⟩]) = (d', none) ↔
        (contiguousFrom (([] : List Nat).length : Int) (sortChunks [⟨2, [7]⟩, ⟨0, [5, 6]⟩]) ∧
          d' = [] ++ flatData (sortChunks [⟨2, [7]⟩, ⟨0, [5, 6]⟩])))
    ∧ (∀ d' msg, appendChunks [] (sortChunks [⟨2, [7]⟩, ⟨0, [5, 6]⟩]) = (d', some msg) →
        ∃ pre c post, sortChunks [⟨2, [7]⟩, ⟨0, [5, 6]⟩] = pre ++ c :: post ∧
          contiguousFrom (([] : List Nat).length : Int) pre ∧ d' = [] ++ flatData pre ∧
          ((c.offset < (d'.length : Int) ∧
              msg = "received a file with overlapping DataChunks") ∨
           ((d'.length : Int) < c.offset ∧
              msg = "received a file with missing DataChunks")))
    ∧ isCompleteFile ⟨some ⟨"/w", 0⟩, [⟨0, []⟩]⟩ =
        GoResult.ret (decide ((0 : Int) = (([] : List Nat).length : Int)))
    ∧ ((0 : Int) = 0 →
        addOneFile [] ⟨some ⟨"/w", 0⟩, []⟩ =
          GoResult.ret ([("/w", ⟨some ⟨"/w", 0⟩, [⟨0, []⟩]⟩)], none)
        ∧ isCompleteFile ⟨some ⟨"/w", 0⟩, [⟨0, []⟩]⟩ = GoResult.ret true))
    ∧ appendChunks [] (sortChunks [⟨2, [7]⟩, ⟨0, [5, 6]⟩]) = ([5, 6, 7], none) :=
  ⟨C1_chunk_reassembly [] [⟨2, [7]⟩, ⟨0, [5, 6]⟩] ⟨"/w", 0⟩, by decide⟩

/-- C3. The claim says a failing File leaves the stored bytes for its path
exactly as they were; the code instead keeps every chunk appended before
the failure, because the appends mutate the shared stored chunk before
the error returns and the error path skips only the final setState. At
the concrete input below, AddFiles fails with the missing-chunks error,
yet the failing File has created its entry and its first chunk's two
bytes remain applied. -/
theorem C3_partial_application_on_failure :
    AddFiles [("s", ⟨[], []⟩)] "s" [⟨some ⟨"/f", 4⟩, [⟨0, [97, 98]⟩, ⟨5, [99, 100]⟩]⟩] =
      GoResult.ret ([("s", ⟨[], [("/f", ⟨some ⟨"/f", 4⟩, [⟨0, [97, 98]⟩]⟩)]⟩)],
        some ("received a file with missing DataChunks")) := by
  decide

/-- C4. The claim says add_interest and add_files on an unknown scan id
reach the error branch and do not panic; the code panics in both, because
getState runs the type assertion on the nil interface returned by the
cache miss before any found-check, leaving the not-found error branch of
AddFiles unreachable. -/
theorem C4_missing_scan_panics :
    AddInterest [] "nope" ⟨DataType.METADATA, "/a", ""⟩ "m" = GoResult.panics
    ∧ AddFiles [] "nope" [] = GoResult.panics
    ∧ AddFiles [("other", ⟨[], []⟩)] "nope" [] = GoResult.panics := by
  decide

/-- C5 counterexample. The claim requires a METADATA_AND_DATA interest to
match only files with at least one byte of data buffered; the code only
requires at least one data chunk. The stored file below has one chunk
holding zero bytes, and IsMatching still returns true. -/
theorem C5_counterexample_zero_byte_chunk :
    IsMatching ⟨DataType.METADATA_AND_DATA, "/foobar", ""⟩
        ⟨some ⟨"/foobar", 5⟩, [⟨0, []⟩]⟩ = Except.ok true
    ∧ flatData ((⟨some ⟨"/foobar", 5⟩, [⟨0, []⟩]⟩ : File).dataChunks) = [] := by
  decide

/-- Reusable characterization of IsMatching, shared by several proofs. -/
theorem isMatching_characterization (i : Interest) (f : File) :
    (IsMatching i f = Except.ok true ↔
      ∃ md, f.metadata = some md ∧ matchString i.pathRegexp md.path = Except.ok true ∧
        (i.dataType = DataType.METADATA ∨
          (i.dataType = DataType.METADATA_AND_DATA ∧ f.dataChunks ≠ [])))
    ∧ (f.metadata = none →
        IsMatching i f = Except.error ("cannot match file without metadata"))
    ∧ (∀ md e, f.metadata = some md → matchString i.pathRegexp md.path = Except.error e →
        IsMatching i f = Except.error e) := by
  refine ⟨?_, ?_, ?_⟩
  · constructor
    · intro h
      match hm : f.metadata with
      | none => simp [IsMatching, hm] at h
      | some md =>
          match hs : matchString i.pathRegexp md.path with
          | Except.error e => simp [IsMatching, hm, hs] at h
          | Except.ok false => simp [IsMatching, hm, hs] at h
          | Except.ok true =>
              simp [IsMatching, hm, hs] at h
              refine ⟨md, rfl, hs, ?_⟩
              rcases h with h | ⟨h1, h2⟩
              · exact Or.inl h
              · exact Or.inr ⟨h1, List.length_pos.mp h2⟩
    · rintro ⟨md, hm, hs, hd⟩
      rcases hd with hd | ⟨hd, hne⟩
      · simp [IsMatching, hm, hs, hd]
      · simp [IsMatching, hm, hs, hd, List.length_pos.mpr hne]
  · intro hm; simp [IsMatching, hm]
  · intro md e hm hs; simp [IsMatching, hm, hs]

/-- C5 amended. IsMatching is true iff the file has metadata, the path
matches the interest's path pattern as a regex find, and either the
interest is metadata-only, or it is metadata-and-data and the file has at
least one data chunk — possibly holding zero bytes. A file without
metadata and a malformed path regex both yield an error rather than a
silent false. -/
theorem C5_is_matching_characterization (i : Interest) (f : File) :
    (IsMatching i f = Except.ok true ↔
      ∃ md, f.metadata = some md ∧ matchString i.pathRegexp md.path = Except.ok true ∧
        (i.dataType = DataType.METADATA ∨
          (i.dataType = DataType.METADATA_AND_DATA ∧ f.dataChunks ≠ [])))
    ∧ (f.metadata = none →
        IsMatching i f = Except.error ("cannot match file without metadata"))
    ∧ (∀ md e, f.metadata = some md → matchString i.pathRegexp md.path = Except.error e →
        IsMatching i f = Except.error e) :=
  isMatching_characterization i f

/-- Closed instantiation of C5 amended at concrete inputs: the iff is
exercised in both directions, the missing-metadata error on a file with
no metadata, and the malformed-regex error on a pattern with a trailing
backslash. -/
theorem C5_is_matching_characterization_witness :
    ((IsMatching ⟨DataType.METADATA, "/a", ""⟩ ⟨none, []⟩ = Except.ok true ↔
      ∃ md, (⟨none, []⟩ : File).metadata = some md ∧
        matchString "/a" md.path = Except.ok true ∧
        (DataType.METADATA = DataType.METADATA ∨
          (DataType.METADATA = DataType.METADATA_AND_DATA ∧
            (⟨none, []⟩ : File).dataChunks ≠ [])))
    ∧ ((⟨none, []⟩ : File).metadata = none →
        IsMatching ⟨DataType.METADATA, "/a", ""⟩ ⟨none, []⟩ =
          Except.error ("cannot match file without metadata"))
    ∧ (∀ md e, (⟨none, []⟩ : File).metadata = some md →
        matchString "/a" md.path = Except.error e →
        IsMatching ⟨DataType.METADATA, "/a", ""⟩ ⟨none, []⟩ = Except.error e))
    ∧ ((IsMatching ⟨DataType.METADATA, "a", ""⟩ ⟨some ⟨"/ab", 1⟩, []⟩ = Except.ok true ↔
      ∃ md, (⟨some ⟨"/ab", 1⟩, []⟩ : File).metadata = some md ∧
        matchString "a" md.path = Except.ok true ∧
        (DataType.METADATA = DataType.METADATA ∨
          (DataType.METADATA = DataType.METADATA_AND_DATA ∧
            (⟨some ⟨"/ab", 1⟩, []⟩ : File).dataChunks ≠ [])))
    ∧ ((⟨some ⟨"/ab", 1⟩, []⟩ : File).metadata = none →
        IsMatching ⟨DataType.METADATA, "a", ""⟩ ⟨some ⟨"/ab", 1⟩, []⟩ =
          Except.error ("cannot match file without metadata"))
    ∧ (∀ md e, (⟨some ⟨"/ab", 1⟩, []⟩ : File).metadata = some md →
        matchString "a" md.path = Except.error e →
        IsMatching ⟨DataType.METADATA, "a", ""⟩ ⟨some ⟨"/ab", 1⟩, []⟩ = Except.error e))
    ∧ IsMatching ⟨DataType.METADATA, "\\", ""⟩ ⟨some ⟨"/ab", 1⟩, []⟩ =
        Except.error ("error parsing regexp") :=
  ⟨C5_is_matching_characterization ⟨DataType.METADATA, "/a", ""⟩ ⟨none, []⟩,
   C5_is_matching_characterization ⟨DataType.METADATA, "a", ""⟩ ⟨some ⟨"/ab", 1⟩, []⟩,
   by decide⟩

/- ### Minify lemmas -/

theorem mem_minifyStep (acc : List (String × Interest)) (i : Interest)
    (kv : String × Interest) (h : kv ∈ minifyStep acc i) :
    kv ∈ acc ∨ kv = (i.pathRegexp, i) := by
  match hl : lookupA acc i.pathRegexp with
  | none =>
      simp only [minifyStep, hl] at h
      exact mem_setA acc i.pathRegexp i kv h
  | some v =>
      simp only [minifyStep, hl] at h
      by_cases hd : i.dataType = DataType.METADATA_AND_DATA
      · rw [if_pos hd] at h
        exact mem_setA acc i.pathRegexp i kv h
      · rw [if_neg hd] at h
        exact Or.inl h

theorem mem_foldl_minifyStep (l : List Interest) :
    ∀ (acc : List (String × Interest)) (kv : String × Interest),
      kv ∈ List.foldl minifyStep acc l →
      kv ∈ acc ∨ (kv.2 ∈ l ∧ kv.1 = kv.2.pathRegexp) := by
  induction l with
  | nil =>
      intro acc kv h
      exact Or.inl h
  | cons i l ih =>
      intro acc kv h
      rcases ih (minifyStep acc i) kv h with h' | h'
      · rcases mem_minifyStep acc i kv h' with h'' | h''
        · exact Or.inl h''
        · right
          rw [h'']
          exact ⟨List.mem_cons_self i l, rfl⟩
      · exact Or.inr ⟨List.mem_cons_of_mem i h'.1, h'.2⟩

theorem lookupA_minifyStep_self (acc : List (String × Interest)) (i : Interest) :
    (lookupA (minifyStep acc i) i.pathRegexp).isSome := by
  match hl : lookupA acc i.pathRegexp with
  | none =>
      simp only [minifyStep, hl]
      rw [lookupA_setA, if_pos rfl]
      rfl
  | some v =>
      simp only [minifyStep, hl]
      by_cases hd : i.dataType = DataType.METADATA_AND_DATA
      · rw [if_pos hd, lookupA_setA, if_pos rfl]
        rfl
      · rw [if_neg hd, hl]
        rfl

theorem lookupA_minifyStep_mono (acc : List (String × Interest)) (i : Interest)
    (k : String) (h : (lookupA acc k).isSome) :
    (lookupA (minifyStep acc i) k).isSome := by
  match hl : lookupA acc i.pathRegexp with
  | none =>
      simp only [minifyStep, hl]
      rw [lookupA_setA]
      by_cases hk : k = i.pathRegexp
      · rw [if_pos hk]; rfl
      · rw [if_neg hk]; exact h
  | some v =>
      simp only [minifyStep, hl]
      by_cases hd : i.dataType = DataType.METADATA_AND_DATA
      · rw [if_pos hd, lookupA_setA]
        by_cases hk : k = i.pathRegexp
        · rw [if_pos hk]; rfl
        · rw [if_neg hk]; exact h
      · rw [if_neg hd]; exact h

theorem lookupA_foldl_minifyStep_mono (l : List Interest) :
    ∀ (acc : List (String × Interest)) (k : String), (lookupA acc k).isSome →
      (lookupA (List.foldl minifyStep acc l) k).isSome := by
  induction l with
  | nil => intro acc k h; exact h
  | cons i l ih =>
      intro acc k h
      exact ih (minifyStep acc i) k (lookupA_minifyStep_mono acc i k h)

theorem lookupA_foldl_minifyStep_covers (l : List Interest) :
    ∀ (acc : List (String × Interest)) (i : Interest), i ∈ l →
      (lookupA (List.foldl minifyStep acc l) i.pathRegexp).isSome := by
  induction l with
  | nil => intro acc i h; exact absurd h (List.not_mem_nil i)
  | cons j l ih =>
      intro acc i h
      rcases List.mem_cons.mp h with h | h
      · subst h
        exact lookupA_foldl_minifyStep_mono l (minifyStep acc i) i.pathRegexp
          (lookupA_minifyStep_self acc i)
      · exact ih (minifyStep acc j) i h

theorem nodupKeys_setA {α : Type} (m : List (String × α)) (k : String) (v : α)
    (h : m.Pairwise (fun a b => a.1 ≠ b.1)) :
    (setA m k v).Pairwise (fun a b => a.1 ≠ b.1) := by
  induction m with
  | nil => simp [setA]
  | cons hd rest ih =>
      obtain ⟨k0, w⟩ := hd
      rcases List.pairwise_cons.mp h with ⟨hhd, hrest⟩
      simp only [setA]
      by_cases h0 : k0 = k
      · subst h0
        rw [if_pos rfl]
        refine List.pairwise_cons.mpr ⟨?_, hrest⟩
        intro b hb
        exact hhd b hb
      · rw [if_neg h0]
        refine List.pairwise_cons.mpr ⟨?_, ih hrest⟩
        intro b hb
        rcases mem_setA rest k v b hb with hb' | hb'
        · exact hhd b hb'
        · rw [hb']; exact h0

theorem nodupKeys_minifyStep (acc : List (String × Interest)) (i : Interest)
    (h : acc.Pairwise (fun a b => a.1 ≠ b.1)) :
    (minifyStep acc i).Pairwise (fun a b => a.1 ≠ b.1) := by
  match hl : lookupA acc i.pathRegexp with
  | none =>
      simp only [minifyStep, hl]
      exact nodupKeys_setA acc i.pathRegexp i h
  | some v =>
      simp only [minifyStep, hl]
      by_cases hd : i.dataType = DataType.METADATA_AND_DATA
      · rw [if_pos hd]
        exact nodupKeys_setA acc i.pathRegexp i h
      · rw [if_neg hd]
        exact h

theorem nodupKeys_foldl_minifyStep (l : List Interest) :
    ∀ acc : List (String × Interest), acc.Pairwise (fun a b => a.1 ≠ b.1) →
      (List.foldl minifyStep acc l).Pairwise (fun a b => a.1 ≠ b.1) := by
  induction l with
  | nil => intro acc h; exact h
  | cons i l ih =>
      intro acc h
      exact ih (minifyStep acc i) (nodupKeys_minifyStep acc i h)

/-- Every interest of the minified list is one of the original interests. -/
theorem minify_subset (S : List Interest) (i : Interest) (h : i ∈ Minify S) :
    i ∈ S := by
  rcases List.mem_map.mp h with ⟨kv, hkv, hsnd⟩
  rcases mem_foldl_minifyStep S [] kv hkv with h' | h'
  · exact absurd h' (List.not_mem_nil kv)
  · exact hsnd ▸ h'.1

/-- Every original path pattern survives into the minified list. -/
theorem minify_key_cover (S : List Interest) (i : Interest) (h : i ∈ S) :
    ∃ i', i' ∈ Minify S ∧ i'.pathRegexp = i.pathRegexp := by
  have hs := lookupA_foldl_minifyStep_covers S [] i h
  match hv : lookupA (List.foldl minifyStep [] S) i.pathRegexp with
  | none => rw [hv] at hs; exact absurd hs (by simp)
  | some v =>
      have hmem := lookupA_mem _ _ _ hv
      rcases mem_foldl_minifyStep S [] (i.pathRegexp, v) hmem with h' | h'
      · exact absurd h' (List.not_mem_nil _)
      · exact ⟨v, List.mem_map.mpr ⟨(i.pathRegexp, v), hmem, rfl⟩, h'.2.symm⟩

/-- Matching through a stored file with at least one chunk depends only on
the path pattern, not on the data type of the interest. -/
theorem isMatching_key_only (i i' : Interest) (f : File)
    (hk : i'.pathRegexp = i.pathRegexp) (hne : f.dataChunks ≠ [])
    (h : IsMatching i f = Except.ok true) : IsMatching i' f = Except.ok true := by
  rcases (isMatching_characterization i f).1.mp h with ⟨md, hm, hs, _⟩
  apply (isMatching_characterization i' f).1.mpr
  refine ⟨md, hm, by rw [hk]; exact hs, ?_⟩
  cases hd : i'.dataType
  · exact Or.inl rfl
  · exact Or.inr ⟨rfl, hne⟩

/-- Some interest of the list accepts the file. -/
def matchesSome (S : List Interest) (f : File) : Prop :=
  ∃ i, i ∈ S ∧ IsMatching i f = Except.ok true

instance (S : List Interest) (f : File) : Decidable (matchesSome S f) :=
  List.decidableBEx (fun i => IsMatching i f = Except.ok true) S

/-- C6 counterexample. The claim says Minify(S) and S accept the same set
of files, in particular that collapsing a metadata-only interest into a
metadata-and-data survivor with the same path pattern changes nothing.
For S holding a metadata-and-data and a metadata-only interest on the
same pattern, Minify keeps only the metadata-and-data survivor, and the
chunkless file below is accepted by S but not by Minify(S). -/
theorem C6_counterexample_chunkless_file :
    matchesSome [⟨DataType.METADATA_AND_DATA, "/a", ""⟩, ⟨DataType.METADATA, "/a", ""⟩]
        ⟨some ⟨"/a", 1⟩, []⟩
    ∧ ¬ matchesSome
        (Minify [⟨DataType.METADATA_AND_DATA, "/a", ""⟩, ⟨DataType.METADATA, "/a", ""⟩])
        ⟨some ⟨"/a", 1⟩, []⟩ := by
  decide

/-- C6 amended. Every file accepted by Minify(S) is accepted by S, and for
every file with at least one data chunk the two accept exactly the same
files; only a chunkless file can be lost, when its metadata-only interest
is collapsed into a metadata-and-data survivor on the same path pattern. -/
theorem C6_minify_acceptance (S : List Interest) (f : File) :
    (matchesSome (Minify S) f → matchesSome S f)
    ∧ (f.dataChunks ≠ [] → (matchesSome S f ↔ matchesSome (Minify S) f)) := by
  constructor
  · rintro ⟨i, hi, h⟩
    exact ⟨i, minify_subset S i hi, h⟩
  · intro hne
    constructor
    · rintro ⟨i, hi, h⟩
      obtain ⟨i', hi', hk⟩ := minify_key_cover S i hi
      exact ⟨i', hi', isMatching_key_only i i' f hk hne h⟩
    · rintro ⟨i, hi, h⟩
      exact ⟨i, minify_subset S i hi, h⟩

/-- Closed instantiation of C6 amended, with the hypotheses discharged at
a concrete interest list and a concrete one-chunk file. -/
theorem C6_minify_acceptance_witness :
    ((matchesSome (Minify [⟨DataType.METADATA_AND_DATA, "/a", ""⟩,
          ⟨DataType.METADATA, "/a", ""⟩]) ⟨some ⟨"/a", 0⟩, [⟨0, []⟩]⟩ →
        matchesSome [⟨DataType.METADATA_AND_DATA, "/a", ""⟩,
          ⟨DataType.METADATA, "/a", ""⟩] ⟨some ⟨"/a", 0⟩, [⟨0, []⟩]⟩)
    ∧ ((⟨some ⟨"/a", 0⟩, [⟨0, []⟩]⟩ : File).dataChunks ≠ [] →
        (matchesSome [⟨DataType.METADATA_AND_DATA, "/a", ""⟩,
            ⟨DataType.METADATA, "/a", ""⟩] ⟨some ⟨"/a", 0⟩, [⟨0, []⟩]⟩ ↔
          matchesSome (Minify [⟨DataType.METADATA_AND_DATA, "/a", ""⟩,
            ⟨DataType.METADATA, "/a", ""⟩]) ⟨some ⟨"/a", 0⟩, [⟨0, []⟩]⟩)))
    ∧ matchesSome [⟨DataType.METADATA_AND_DATA, "/a", ""⟩,
        ⟨DataType.METADATA, "/a", ""⟩] ⟨some ⟨"/a", 0⟩, [⟨0, []⟩]⟩ :=
  ⟨C6_minify_acceptance [⟨DataType.METADATA_AND_DATA, "/a", ""⟩,
      ⟨DataType.METADATA, "/a", ""⟩] ⟨some ⟨"/a", 0⟩, [⟨0, []⟩]⟩,
   by decide⟩

/-- C7 counterexample. The claim says two interests with the same path
pattern but distinct non-empty content patterns are not collapsed and no
content pattern is dropped; Minify keys the map by path pattern only, so
the two interests below collapse to one and the second content pattern is
gone from the result. -/
theorem C7_counterexample_content_dropped :
    Minify [⟨DataType.METADATA, "/p", "ca"⟩, ⟨DataType.METADATA, "/p", "cb"⟩] =
      [⟨DataType.METADATA, "/p", "ca"⟩]
    ∧ ¬ (∃ i, i ∈ Minify [⟨DataType.METADATA, "/p", "ca"⟩,
          ⟨DataType.METADATA, "/p", "cb"⟩] ∧ i.contentRegexp = "cb") := by
  decide

/-- C7 amended. Minify keys deduplication solely on path_pattern and
ignores content patterns: the result holds exactly one interest per
distinct path pattern of the input — so interests sharing a path pattern
are collapsed even when their non-empty content patterns differ — and
every surviving interest is one of the originals, keeping only the
survivors' content patterns. -/
theorem C7_minify_keyed_by_path_only (S : List Interest) :
    (∀ i', i' ∈ Minify S → i' ∈ S)
    ∧ (∀ i, i ∈ S → ∃ i', i' ∈ Minify S ∧ i'.pathRegexp = i.pathRegexp)
    ∧ (Minify S).Pairwise (fun a b => a.pathRegexp ≠ b.pathRegexp) := by
  refine ⟨minify_subset S, minify_key_cover S, ?_⟩
  have hkeys : (List.foldl minifyStep [] S).Pairwise (fun a b => a.1 ≠ b.1) :=
    nodupKeys_foldl_minifyStep S [] List.Pairwise.nil
  have hpath : ∀ kv, kv ∈ List.foldl minifyStep [] S → kv.1 = kv.2.pathRegexp := by
    intro kv hkv
    rcases mem_foldl_minifyStep S [] kv hkv with h | h
    · exact absurd h (List.not_mem_nil kv)
    · exact h.2
  apply List.pairwise_map.mpr
  refine List.Pairwise.imp_of_mem ?_ hkeys
  intro a b ha hb hne
  rw [← hpath a ha, ← hpath b hb]
  exact hne

/-- Closed instantiation of C7 amended at a concrete interest list. -/
theorem C7_minify_keyed_by_path_only_witness :
    ((∀ i', i' ∈ Minify ([⟨DataType.METADATA, "/p", "ca"⟩,
        ⟨DataType.METADATA_AND_DATA, "/p", "cb"⟩] : List Interest) →
        i' ∈ ([⟨DataType.METADATA, "/p", "ca"⟩,
          ⟨DataType.METADATA_AND_DATA, "/p", "cb"⟩] : List Interest))
    ∧ (∀ i, i ∈ ([⟨DataType.METADATA, "/p", "ca"⟩,
        ⟨DataType.METADATA_AND_DATA, "/p", "cb"⟩] : List Interest) →
        ∃ i', i' ∈ Minify ([⟨DataType.METADATA, "/p", "ca"⟩,
          ⟨DataType.METADATA_AND_DATA, "/p", "cb"⟩] : List Interest) ∧
          i'.pathRegexp = i.pathRegexp)
    ∧ (Minify ([⟨DataType.METADATA, "/p", "ca"⟩,
        ⟨DataType.METADATA_AND_DATA, "/p", "cb"⟩] : List Interest)).Pairwise
        (fun a b => a.pathRegexp ≠ b.pathRegexp))
    ∧ Minify ([⟨DataType.METADATA, "/p", "ca"⟩,
        ⟨DataType.METADATA_AND_DATA, "/p", "cb"⟩] : List Interest) =
        [⟨DataType.METADATA_AND_DATA, "/p", "cb"⟩] :=
  ⟨C7_minify_keyed_by_path_only [⟨DataType.METADATA, "/p", "ca"⟩,
      ⟨DataType.METADATA_AND_DATA, "/p", "cb"⟩],
   by decide⟩

/-- C8 counterexample. The claim says a re-submission whose metadata
conflicts with the stored size fails with an invalid-argument error; the
code never compares the incoming metadata with the stored one. Below, a
path stored with size 5 is re-submitted with size 99, and AddFiles
returns without error, leaving the stored metadata untouched. -/
theorem C8_counterexample_conflicting_metadata_accepted :
    AddFiles [("s", ⟨[], [("/f", ⟨some ⟨"/f", 5⟩, [⟨0, []⟩]⟩)]⟩)] "s"
        [⟨some ⟨"/f", 99⟩, []⟩] =
      GoResult.ret ([("s", ⟨[], [("/f", ⟨some ⟨"/f", 5⟩, [⟨0, []⟩]⟩)]⟩)], none) := by
  decide

/-- C8 amended. On a repeated submission of an already-tracked path the
incoming metadata is ignored entirely: no conflict check happens, no
error is raised on its account, and the stored metadata stays exactly
what it was. -/
theorem C8_repeat_submission_keeps_stored_metadata (fm : List (String × File))
    (f cf : File) (fm' : List (String × File)) (err : Option String)
    (hstored : lookupA fm f.getPath = some cf)
    (h : addOneFile fm f = GoResult.ret (fm', err)) :
    ∃ g, lookupA fm' f.getPath = some g ∧ g.metadata = cf.metadata := by
  rw [addOneFile] at h
  simp only [hstored] at h
  match hc : cf.dataChunks with
  | [] => rw [hc] at h; exact absurd h (by simp)
  | c0 :: rest =>
      rw [hc] at h
      have hfm : fm' = setA fm f.getPath
          ⟨cf.metadata, ⟨c0.offset, (appendChunks c0.data (sortChunks f.dataChunks)).1⟩ :: rest⟩ := by
        have := congrArg (fun r => match r with
          | GoResult.ret p => p.1
          | GoResult.panics => fm') h
        simpa using this.symm
      refine ⟨⟨cf.metadata, ⟨c0.offset, (appendChunks c0.data (sortChunks f.dataChunks)).1⟩ :: rest⟩,
        ?_, rfl⟩
      rw [hfm, lookupA_setA, if_pos rfl]

/-- Closed instantiation of C8 amended at the concrete conflicting
re-submission. -/
theorem C8_repeat_submission_keeps_stored_metadata_witness :
    (∃ g, lookupA (setA [("/f", (⟨some ⟨"/f", 5⟩, [⟨0, []⟩]⟩ : File))] "/f"
          ⟨some ⟨"/f", 5⟩, [⟨0, []⟩]⟩)
        (File.getPath ⟨some ⟨"/f", 99⟩, []⟩) = some g ∧
        g.metadata = (⟨some ⟨"/f", 5⟩, [⟨0, []⟩]⟩ : File).metadata) :=
  C8_repeat_submission_keeps_stored_metadata
    [("/f", ⟨some ⟨"/f", 5⟩, [⟨0, []⟩]⟩)] ⟨some ⟨"/f", 99⟩, []⟩
    ⟨some ⟨"/f", 5⟩, [⟨0, []⟩]⟩
    (setA [("/f", (⟨some ⟨"/f", 5⟩, [⟨0, []⟩]⟩ : File))] "/f"
      ⟨some ⟨"/f", 5⟩, [⟨0, []⟩]⟩) none (by decide) (by decide)

/- ### grpcutil.GetSslServerCreds -/

/-- Control-flow outcome of GetSslServerCreds: TLS disabled, the
both-required configuration error, or proceeding to load the server
certificate (the subsequent file loads are input/output and outside this
model), without or with client-certificate verification. -/
inductive CredsDecision where
  | noTls
  | errOnlyOne
  | loadServerCert
  | loadServerCertWithClientCA
deriving DecidableEq, Repr

/-- GetSslServerCreds (grpcutil): with both cert and key paths empty it
returns nil options and nil error; with exactly one of them set it
returns the configuration error; otherwise it loads the pair and, when a
client CA path is present, additionally enforces client authentication. -/
def GetSslServerCreds (certPath keyPath caCertPath : String) : CredsDecision :=
  if certPath = "" ∧ keyPath = "" then CredsDecision.noTls
  else if certPath = "" ∨ keyPath = "" then CredsDecision.errOnlyOne
  else if caCertPath = "" then CredsDecision.loadServerCert
  else CredsDecision.loadServerCertWithClientCA

/-- C9 counterexample. The claim says a client CA supplied without server
certificate and key is an error; the code tests the cert and key paths
first and returns the TLS-disabled success before ever looking at the
client CA, which is silently ignored. -/
theorem C9_counterexample_client_ca_ignored :
    GetSslServerCreds "" "" "ca.pem" = CredsDecision.noTls
    ∧ CredsDecision.noTls ≠ CredsDecision.errOnlyOne := by
  decide

/-- C9 amended. With both certificate and key paths empty, TLS is
disabled without error regardless of the client-CA option — a client CA
without server credentials is silently ignored, not rejected; with
exactly one of the two set, the configuration error is returned. -/
theorem C9_ssl_server_creds (certPath keyPath caCertPath : String) :
    (certPath = "" ∧ keyPath = "" →
      GetSslServerCreds certPath keyPath caCertPath = CredsDecision.noTls)
    ∧ ((certPath = "" ∧ keyPath ≠ "") ∨ (certPath ≠ "" ∧ keyPath = "") →
      GetSslServerCreds certPath keyPath caCertPath = CredsDecision.errOnlyOne) := by
  constructor
  · intro h
    rw [GetSslServerCreds, if_pos h]
  · intro h
    have hne : ¬ (certPath = "" ∧ keyPath = "") := by
      rintro ⟨h1, h2⟩
      rcases h with ⟨_, hb⟩ | ⟨ha, _⟩
      · exact hb h2
      · exact ha h1
    have hor : certPath = "" ∨ keyPath = "" := by
      rcases h with ⟨ha, _⟩ | ⟨_, hb⟩
      · exact Or.inl ha
      · exact Or.inr hb
    rw [GetSslServerCreds, if_neg hne, if_pos hor]

/-- Closed instantiation of C9 amended: both paths empty with a client CA
set disables TLS, and a key without a certificate is the configuration
error. -/
theorem C9_ssl_server_creds_witness :
    (("" : String) = "" ∧ ("" : String) = "" →
      GetSslServerCreds "" "" "ca.pem" = CredsDecision.noTls)
    ∧ ((("" : String) = "" ∧ ("" : String) ≠ "") ∨
        (("" : String) ≠ "" ∧ ("" : String) = "") →
      GetSslServerCreds "" "" "ca.pem" = CredsDecision.errOnlyOne)
    ∧ GetSslServerCreds "" "k.pem" "" = CredsDecision.errOnlyOne :=
  ⟨(C9_ssl_server_creds "" "" "ca.pem").1,
   (C9_ssl_server_creds "" "" "ca.pem").2,
   (C9_ssl_server_creds "" "k.pem" "").2 (Or.inl ⟨rfl, by decide⟩)⟩

/- ### Routing characterization -/

theorem getRouted_appendRouted (r : List (String × List MinionFile))
    (m m' : String) (p : MinionFile) :
    getRouted (appendRouted r m p) m' =
      getRouted r m' ++ (if m' = m then [p] else []) := by
  unfold getRouted appendRouted
  rw [lookupA_setA]
  by_cases h : m' = m
  · rw [if_pos h, if_pos h]
    subst h
    simp
  · rw [if_neg h, if_neg h]
    simp

/-- The payload routed for one (interest, file) pair, when one is routed:
a matching METADATA_AND_DATA interest on a complete file gets the bytes,
a matching METADATA interest gets metadata only, everything else gets
nothing. -/
def routablePayload (mi : MappedInterest) (f : File) : Option MinionFile :=
  match IsMatching mi.interest f, f.dataChunks with
  | Except.ok true, c0 :: _ =>
      if mi.interest.dataType = DataType.METADATA_AND_DATA ∧
          f.getSize = (c0.data.length : Int) then
        some ⟨f.metadata, c0.data⟩
      else if mi.interest.dataType = DataType.METADATA then
        some ⟨f.metadata, []⟩
      else none
  | _, _ => none

/-- The payloads delivered to minion m for one file, one per interest of m
that routes the file, in interest order. -/
def deliveredFile (m : String) (f : File) : List MappedInterest → List MinionFile
  | [] => []
  | mi :: mis =>
      (if mi.minion = m then (routablePayload mi f).toList else []) ++
        deliveredFile m f mis

/-- The payloads delivered to minion m over the whole pass, in file order. -/
def delivered (intrs : List MappedInterest) (m : String) :
    List File → List MinionFile
  | [] => []
  | f :: fs => deliveredFile m f intrs ++ delivered intrs m fs

theorem routeInterests_ok (f : File) :
    ∀ (intrs : List MappedInterest) (routed r : List (String × List MinionFile)),
      routeInterests routed f intrs = GoResult.ret (Except.ok r) →
      ∀ m, getRouted r m = getRouted routed m ++ deliveredFile m f intrs := by
  intro intrs
  induction intrs with
  | nil =>
      intro routed r h m
      simp [routeInterests] at h
      simp [deliveredFile, h]
  | cons mi mis ih =>
      intro routed r h m
      match hM : IsMatching mi.interest f with
      | Except.error e =>
          simp [routeInterests, routeStep, hM] at h
      | Except.ok false =>
          simp only [routeInterests, routeStep, hM] at h
          have := ih routed r h m
          rw [this, deliveredFile]
          simp [routablePayload, hM]
      | Except.ok true =>
          match hc : f.dataChunks with
          | [] => simp [routeInterests, routeStep, hM, hc] at h
          | c0 :: rest =>
              simp only [routeInterests, routeStep, hM, hc] at h
              by_cases h1 : mi.interest.dataType = DataType.METADATA_AND_DATA ∧
                  f.getSize = (c0.data.length : Int)
              · rw [if_pos h1] at h
                have := ih (appendRouted routed mi.minion ⟨f.metadata, c0.data⟩) r h m
                rw [this, getRouted_appendRouted, deliveredFile]
                have hp : routablePayload mi f = some ⟨f.metadata, c0.data⟩ := by
                  simp only [routablePayload, hM, hc]
                  rw [if_pos h1]
                rw [hp]
                by_cases hm : mi.minion = m
                · rw [if_pos hm, if_pos (hm.symm), List.append_assoc]
                  rfl
                · rw [if_neg hm, if_neg (fun hh => hm hh.symm)]
                  simp
              · rw [if_neg h1] at h
                by_cases h2 : mi.interest.dataType = DataType.METADATA
                · rw [if_pos h2] at h
                  have := ih (appendRouted routed mi.minion ⟨f.metadata, []⟩) r h m
                  rw [this, getRouted_appendRouted, deliveredFile]
                  have hp : routablePayload mi f = some ⟨f.metadata, []⟩ := by
                    simp only [routablePayload, hM, hc]
                    rw [if_neg h1, if_pos h2]
                  rw [hp]
                  by_cases hm : mi.minion = m
                  · rw [if_pos hm, if_pos (hm.symm), List.append_assoc]
                    rfl
                  · rw [if_neg hm, if_neg (fun hh => hm hh.symm)]
                    simp
                · rw [if_neg h2] at h
                  have := ih routed r h m
                  rw [this, deliveredFile]
                  have hp : routablePayload mi f = none := by
                    simp only [routablePayload, hM, hc]
                    rw [if_neg h1, if_neg h2]
                  rw [hp]
                  simp

theorem routeFilesLoop_ok (intrs : List MappedInterest) :
    ∀ (files : List File) (routed r : List (String × List MinionFile)),
      routeFilesLoop routed intrs files = GoResult.ret (Except.ok r) →
      ∀ m, getRouted r m = getRouted routed m ++ delivered intrs m files := by
  intro files
  induction files with
  | nil =>
      intro routed r h m
      simp [routeFilesLoop] at h
      simp [delivered, h]
  | cons f fs ih =>
      intro routed r h m
      match hI : routeInterests routed f intrs with
      | GoResult.panics => simp [routeFilesLoop, hI] at h
      | GoResult.ret (Except.error e) => simp [routeFilesLoop, hI] at h
      | GoResult.ret (Except.ok routed1) =>
          simp only [routeFilesLoop, hI] at h
          have hstep := routeInterests_ok f intrs routed routed1 hI m
          have := ih routed1 r h m
          rw [this, hstep, delivered, List.append_assoc]

/-- C2 counterexample. The claim says each analyzer receives at most one
routed payload per file and routing pass, deduplicated by analyzer. The
minion m below registers two distinct metadata-only interests that both
match the single stored file (both matching and satisfying their data
requirement), and the pass delivers the file to m twice — once per
matching interest, with no dedupe by analyzer. -/
theorem C2_counterexample_duplicate_delivery :
    ScanFilesRouting
        [⟨⟨DataType.METADATA, "/a", ""⟩, "m"⟩, ⟨⟨DataType.METADATA, "a", ""⟩, "m"⟩]
        [⟨some ⟨"/a", 0⟩, [⟨0, []⟩]⟩] =
      GoResult.ret (Except.ok [("m", [⟨some ⟨"/a", 0⟩, []⟩, ⟨some ⟨"/a", 0⟩, []⟩])])
    ∧ (getRouted [("m", [⟨some ⟨"/a", 0⟩, []⟩, ⟨some ⟨"/a", 0⟩, []⟩])] "m").length = 2
    ∧ IsMatching ⟨DataType.METADATA, "/a", ""⟩ ⟨some ⟨"/a", 0⟩, [⟨0, []⟩]⟩ = Except.ok true
    ∧ IsMatching ⟨DataType.METADATA, "a", ""⟩ ⟨some ⟨"/a", 0⟩, [⟨0, []⟩]⟩ = Except.ok true := by
  decide

/-- C2 amended. During one routing pass each minion receives exactly one
routed payload per (file, interest) pair whose interest belongs to it,
matches the file and has its data requirement satisfied, in pass order;
a minion several of whose interests route the same file therefore
receives that file once per such interest — deduplication is by interest
occurrence, not by analyzer. -/
theorem C2_routing_per_interest_delivery (intrs : List MappedInterest)
    (files : List File) (r : List (String × List MinionFile))
    (h : ScanFilesRouting intrs files = GoResult.ret (Except.ok r)) (m : String) :
    getRouted r m = delivered intrs m files := by
  have := routeFilesLoop_ok intrs files [] r h m
  simpa [getRouted, lookupA] using this

/-- Closed instantiation of C2 amended on the duplicate-delivery input:
the two payloads delivered to minion m are exactly the per-interest
deliveries predicted for the single file. -/
theorem C2_routing_per_interest_delivery_witness :
    getRouted [("m", [⟨some ⟨"/a", 0⟩, []⟩, ⟨some ⟨"/a", 0⟩, []⟩])] "m" =
      delivered [⟨⟨DataType.METADATA, "/a", ""⟩, "m"⟩, ⟨⟨DataType.METADATA, "a", ""⟩, "m"⟩]
        "m" [⟨some ⟨"/a", 0⟩, [⟨0, []⟩]⟩] :=
  C2_routing_per_interest_delivery
    [⟨⟨DataType.METADATA, "/a", ""⟩, "m"⟩, ⟨⟨DataType.METADATA, "a", ""⟩, "m"⟩]
    [⟨some ⟨"/a", 0⟩, [⟨0, []⟩]⟩]
    [("m", [⟨some ⟨"/a", 0⟩, []⟩, ⟨some ⟨"/a", 0⟩, []⟩])]
    (by decide) "m"

/- ### The single-chunk invariant of the state store -/

/-- A stored file holds exactly one chunk, at offset zero, accumulating
the contiguous byte prefix received so far. -/
def goodFile (f : File) : Prop :=
  ∃ d, f.dataChunks = [⟨0, d⟩]

/-- Boolean form of the stored-file invariant, for evaluation. -/
def goodFileB (f : File) : Bool :=
  match f.dataChunks with
  | [c] => c.offset = 0
  | _ => false

theorem goodFile_iff (f : File) : goodFile f ↔ goodFileB f = true := by
  unfold goodFile goodFileB
  match hc : f.dataChunks with
  | [] => simp
  | [c] =>
      obtain ⟨o, dd⟩ := c
      constructor
      · rintro ⟨d, h1⟩
        simp at h1
        simp [h1.1]
      · intro h1
        simp at h1
        exact ⟨dd, by simp [h1]⟩
  | c1 :: c2 :: rest => simp

instance goodFileDec (f : File) : Decidable (goodFile f) :=
  decidable_of_iff _ (goodFile_iff f).symm

/-- Every file of a scan files map is in stored form. -/
def goodFiles (fm : List (String × File)) : Prop :=
  ∀ kv, kv ∈ fm → goodFile kv.2

instance goodFilesDec (fm : List (String × File)) : Decidable (goodFiles fm) :=
  decidable_of_iff (∀ kv ∈ fm, goodFile kv.2) Iff.rfl

/-- Every scan of the cache has its files in stored form. -/
def goodCache (cache : List (String × ScanState)) : Prop :=
  ∀ kv, kv ∈ cache → goodFiles kv.2.files

instance goodCacheDec (cache : List (String × ScanState)) : Decidable (goodCache cache) :=
  decidable_of_iff (∀ kv ∈ cache, goodFiles kv.2.files) Iff.rfl

theorem goodFiles_setA (fm : List (String × File)) (p : String) (f : File)
    (hfm : goodFiles fm) (hf : goodFile f) : goodFiles (setA fm p f) := by
  intro kv hkv
  rcases mem_setA fm p f kv hkv with h | h
  · exact hfm kv h
  · rw [h]; exact hf

theorem goodCache_setA (cache : List (String × ScanState)) (sid : String)
    (s : ScanState) (hc : goodCache cache) (hs : goodFiles s.files) :
    goodCache (setA cache sid s) := by
  intro kv hkv
  rcases mem_setA cache sid s kv hkv with h | h
  · exact hc kv h
  · rw [h]; exact hs

theorem addOneFile_good (fm : List (String × File)) (f : File)
    (h : goodFiles fm) :
    ∃ fm' err, addOneFile fm f = GoResult.ret (fm', err) ∧ goodFiles fm' := by
  match hl : lookupA fm f.getPath with
  | some cf =>
      have hcf : goodFile cf := h (f.getPath, cf) (lookupA_mem fm f.getPath cf hl)
      obtain ⟨d, hd⟩ := hcf
      refine ⟨setA fm f.getPath
        ⟨cf.metadata, [⟨0, (appendChunks d (sortChunks f.dataChunks)).1⟩]⟩,
        (appendChunks d (sortChunks f.dataChunks)).2, ?_, ?_⟩
      · simp only [addOneFile, hl, hd]
      · exact goodFiles_setA fm f.getPath _ h ⟨_, rfl⟩
  | none =>
      refine ⟨setA (setA fm f.getPath ⟨f.metadata, [⟨0, []⟩]⟩) f.getPath
        ⟨f.metadata, [⟨0, (appendChunks [] (sortChunks f.dataChunks)).1⟩]⟩,
        (appendChunks [] (sortChunks f.dataChunks)).2, ?_, ?_⟩
      · simp only [addOneFile, hl]
      · exact goodFiles_setA _ f.getPath _
          (goodFiles_setA fm f.getPath _ h ⟨[], rfl⟩) ⟨_, rfl⟩

theorem addFilesLoop_good :
    ∀ (fs : List File) (fm : List (String × File)), goodFiles fm →
      ∃ r, addFilesLoop fm fs = GoResult.ret r ∧ goodFiles r.1 := by
  intro fs
  induction fs with
  | nil =>
      intro fm h
      exact ⟨(fm, none), rfl, h⟩
  | cons f fs ih =>
      intro fm h
      obtain ⟨fm', err, heq, hgood⟩ := addOneFile_good fm f h
      match err with
      | some e =>
          refine ⟨(fm', some e), ?_, hgood⟩
          simp [addFilesLoop, heq]
      | none =>
          obtain ⟨r, hr, hrg⟩ := ih fm' hgood
          refine ⟨r, ?_, hrg⟩
          simp [addFilesLoop, heq, hr]

theorem routeStep_no_panic (routed : List (String × List MinionFile)) (f : File)
    (mi : MappedInterest) (h : f.dataChunks ≠ []) :
    ∃ res, routeStep routed f mi = GoResult.ret res := by
  match hM : IsMatching mi.interest f with
  | Except.error e => exact ⟨Except.error e, by simp [routeStep, hM]⟩
  | Except.ok false => exact ⟨Except.ok routed, by simp [routeStep, hM]⟩
  | Except.ok true =>
      match hc : f.dataChunks with
      | [] => exact absurd hc h
      | c0 :: rest =>
          simp only [routeStep, hM, hc]
          split_ifs <;> exact ⟨_, rfl⟩

theorem routeInterests_no_panic (f : File) (hne : f.dataChunks ≠ []) :
    ∀ (intrs : List MappedInterest) (routed : List (String × List MinionFile)),
      ∃ res, routeInterests routed f intrs = GoResult.ret res := by
  intro intrs
  induction intrs with
  | nil => intro routed; exact ⟨Except.ok routed, rfl⟩
  | cons mi mis ih =>
      intro routed
      obtain ⟨res, hres⟩ := routeStep_no_panic routed f mi hne
      match res with
      | Except.error e =>
          exact ⟨Except.error e, by simp [routeInterests, hres]⟩
      | Except.ok routed1 =>
          obtain ⟨res1, hres1⟩ := ih routed1
          exact ⟨res1, by simp [routeInterests, hres, hres1]⟩

theorem routeFilesLoop_no_panic (intrs : List MappedInterest) :
    ∀ (files : List File) (routed : List (String × List MinionFile)),
      (∀ f, f ∈ files → f.dataChunks ≠ []) →
      ∃ res, routeFilesLoop routed intrs files = GoResult.ret res := by
  intro files
  induction files with
  | nil => intro routed _; exact ⟨Except.ok routed, rfl⟩
  | cons f fs ih =>
      intro routed hne
      obtain ⟨res, hres⟩ := routeInterests_no_panic f
        (hne f (List.mem_cons_self f fs)) intrs routed
      match res with
      | Except.error e =>
          exact ⟨Except.error e, by simp [routeFilesLoop, hres]⟩
      | Except.ok routed1 =>
          obtain ⟨res1, hres1⟩ := ih routed1
            (fun g hg => hne g (List.mem_cons_of_mem f hg))
          exact ⟨res1, by simp [routeFilesLoop, hres, hres1]⟩

/-- C10. The stored-file invariant: from the empty store, every operation
of the Local state manager keeps every stored File holding exactly one
DataChunk, at offset 0, with the contiguous prefix received so far;
consequently, on an existing scan, the AddFiles loop with its unguarded
first-chunk access never panics, and neither does the routing pass of
ScanFiles with its unguarded first-chunk access and completeness test
over the stored files. -/
theorem C10_single_chunk_invariant :
    goodCache []
    ∧ (∀ cache sid, goodCache cache → goodCache (CreateScan cache sid))
    ∧ (∀ cache sid fs, goodCache cache →
        (ScanExists cache sid = true →
          ∃ res, AddFiles cache sid fs = GoResult.ret res)
        ∧ (∀ res, AddFiles cache sid fs = GoResult.ret res → goodCache res.1))
    ∧ (∀ cache sid i m res, goodCache cache →
        AddInterest cache sid i m = GoResult.ret res → goodCache res)
    ∧ (∀ cache sid f res, goodCache cache →
        RemoveFile cache sid f = GoResult.ret res → goodCache res.1)
    ∧ (∀ intrs cache sid s, goodCache cache → lookupA cache sid = some s →
        ∃ res, ScanFilesRouting intrs (GetFiles s) = GoResult.ret res) := by
  refine ⟨?_, ?_, ?_, ?_, ?_, ?_⟩
  · intro kv hkv; exact absurd hkv (List.not_mem_nil kv)
  · intro cache sid hc
    exact goodCache_setA cache sid ⟨[], []⟩ hc (fun kv hkv => absurd hkv (List.not_mem_nil kv))
  · intro cache sid fs hc
    constructor
    · intro hex
      match hl : lookupA cache sid with
      | none => rw [ScanExists, hl] at hex; exact absurd hex (by simp)
      | some s =>
          obtain ⟨r, hr, _⟩ := addFilesLoop_good fs s.files
            (hc (sid, s) (lookupA_mem cache sid s hl))
          exact ⟨(setA cache sid ⟨s.interests, r.1⟩, r.2),
            by simp [AddFiles, getState, hl, hr]⟩
    · intro res hres
      match hl : lookupA cache sid with
      | none => simp [AddFiles, getState, hl] at hres
      | some s =>
          obtain ⟨r, hr, hrg⟩ := addFilesLoop_good fs s.files
            (hc (sid, s) (lookupA_mem cache sid s hl))
          simp only [AddFiles, getState, hl, hr] at hres
          have : res = (setA cache sid ⟨s.interests, r.1⟩, r.2) := by
            cases hres; rfl
          rw [this]
          exact goodCache_setA cache sid ⟨s.interests, r.1⟩ hc hrg
  · intro cache sid i m res hc hres
    match hl : lookupA cache sid with
    | none => simp [AddInterest, getState, hl] at hres
    | some s =>
        simp only [AddInterest, getState, hl] at hres
        have : res = setA cache sid ⟨s.interests ++ [⟨i, m⟩], s.files⟩ := by
          cases hres; rfl
        rw [this]
        exact goodCache_setA cache sid _ hc
          (hc (sid, s) (lookupA_mem cache sid s hl))
  · intro cache sid f res hc hres
    match hl : lookupA cache sid with
    | none => simp [RemoveFile, getState, hl] at hres
    | some s =>
        simp only [RemoveFile, getState, hl] at hres
        match hf : lookupA s.files f.getPath with
        | some g =>
            rw [hf] at hres
            have : res = (setA cache sid ⟨s.interests, removeA s.files f.getPath⟩, true) := by
              cases hres; rfl
            rw [this]
            refine goodCache_setA cache sid _ hc ?_
            intro kv hkv
            exact hc (sid, s) (lookupA_mem cache sid s hl) kv
              (mem_removeA s.files f.getPath kv hkv)
        | none =>
            rw [hf] at hres
            have : res = (cache, false) := by cases hres; rfl
            rw [this]
            exact hc
  · intro intrs cache sid s hc hl
    apply routeFilesLoop_no_panic intrs (GetFiles s) []
    intro f hf
    rcases List.mem_map.mp hf with ⟨kv, hkv, hsnd⟩
    obtain ⟨d, hd⟩ := hc (sid, s) (lookupA_mem cache sid s hl) kv hkv
    rw [← hsnd, hd]
    simp

/-- Closed instantiation of C10 at a concrete store, with the conditional
conjuncts discharged by evaluation at a stored one-chunk file. -/
theorem C10_single_chunk_invariant_witness :
    (∃ res, AddFiles [("s", ⟨[], [("/f", ⟨some ⟨"/f", 2⟩, [⟨0, [1]⟩]⟩)]⟩)] "s"
        [⟨some ⟨"/f", 2⟩, [⟨1, [2]⟩]⟩] = GoResult.ret res)
    ∧ (∃ res, ScanFilesRouting [⟨⟨DataType.METADATA, "/f", ""⟩, "m"⟩]
        (GetFiles ⟨[], [("/f", ⟨some ⟨"/f", 2⟩, [⟨0, [1]⟩]⟩)]⟩) = GoResult.ret res) :=
  ⟨(C10_single_chunk_invariant.2.2.1
      [("s", ⟨[], [("/f", ⟨some ⟨"/f", 2⟩, [⟨0, [1]⟩]⟩)]⟩)] "s"
      [⟨some ⟨"/f", 2⟩, [⟨1, [2]⟩]⟩] (by decide)).1 (by decide),
   C10_single_chunk_invariant.2.2.2.2.2
      [⟨⟨DataType.METADATA, "/f", ""⟩, "m"⟩]
      [("s", ⟨[], [("/f", ⟨some ⟨"/f", 2⟩, [⟨0, [1]⟩]⟩)]⟩)] "s"
      ⟨[], [("/f", ⟨some ⟨"/f", 2⟩, [⟨0, [1]⟩]⟩)]⟩ (by decide) (by decide)⟩

end Minions
